import Mathlib

/-!
Verification development for the `galax` orbit-integration core
(`galax/dynamics/_src/integrate/core.py`) and the derived-quantity
functions (`galax/dynamics/_src/funcs.py`).

The Python code is shallowly embedded:
* machine floats are modelled by exact rationals `ℚ` (for the integrator
  pipeline, whose claims are structural) and by reals `ℝ` (for the
  analytic formulas in `funcs.py`);
* the external adaptive ODE solver (`diffrax.diffeqsolve`) is an external
  collaborator: it is modelled by an abstract flow map together with the
  documented contract that a solve saving at times `ts` returns exactly
  those times paired with states;
* keyword-option dictionaries are association lists with Python `dict`
  semantics (`get` returns `None` for a missing key, `pop` raises on a
  missing key).
-/

namespace Galax

/-! ## Python keyword-option dictionaries

`Integrator.diffeq_kw` maps option names to either Python `None` or an
integer.  `KwVal` is that value type: `none` is Python `None`, `some n`
an integer such as a `max_steps` budget. -/

abbrev KwVal := Option ℕ

abbrev Kw := List (String × KwVal)

/-- Python `dict.get(k)`: the stored value, or `None` when the key is
absent.  Note that a key stored with value `None` and a missing key are
indistinguishable through `get`. -/
def pyGet (kw : Kw) (k : String) : KwVal :=
  (kw.lookup k).getD none

/-- Python `k in dict`. -/
def pyContains (kw : Kw) (k : String) : Bool :=
  (kw.lookup k).isSome

/-- Python `dict.pop(k)` (discarding the returned value): removes the
key; raises `KeyError` (here: `none`) when the key is absent. -/
def pyPop (kw : Kw) (k : String) : Option Kw :=
  if pyContains kw k then some (kw.eraseP (fun p => p.1 == k)) else none

/-- Lines 378-380 of `core.py`, in `Integrator.__call__`:

```
diffeq_kw = dict(self.diffeq_kw)
if interpolated and diffeq_kw.get("max_steps") is None:
    diffeq_kw.pop("max_steps")
```

Returns the keyword options that are passed on to `diffrax.diffeqsolve`,
or `none` when the Python code would raise (`pop` on a missing key). -/
def processDiffeqKw (kw : Kw) (interpolated : Bool) : Option Kw :=
  if interpolated ∧ pyGet kw "max_steps" = none then pyPop kw "max_steps"
  else some kw

/-! ## Shape semantics of `vectorize_diffeq` and the base-case call

Shapes are lists of axis sizes, as in NumPy.  `vectorize_diffeq`
(lines 42-86 of `core.py`) receives four arguments with trailing core
shapes `(6,)`, `()`, `()`, `(T,)`; everything in front of the core shape
is a batch shape. -/

/-- The batch ("noncore") part of a shape:
`xp.shape(arg)[: xp.ndim(arg) - len(core_dims)]`. -/
def noncoreShape (shape : List ℕ) (coreLen : ℕ) : List ℕ :=
  shape.take (shape.length - coreLen)

/-- The padding `pad_ndim * (1,) + noncore_shape` with `pad_ndim = 1 - len(noncore_shape)`:
the batch shape is padded on the left with 1s only up to rank one
(a Python negative-count tuple repetition is empty). -/
def filledShape (noncore : List ℕ) : List ℕ :=
  List.replicate (1 - noncore.length) 1 ++ noncore

/-- The batch part after `xp.squeeze(arg, axis=squeeze_indices)`: every
size-1 batch axis is removed. -/
def squeezedBatch (noncore : List ℕ) : List ℕ :=
  noncore.filter (fun n => n ≠ 1)

/-- Sizes of one padded batch axis across the four arguments are
compatible for `jax.vmap` if the non-1 sizes (the mapped ones) agree;
the common mapped size is returned, `none` for an unmapped (all-1) axis. -/
def mappedSize (sizes : List ℕ) : Option (Option ℕ) :=
  match (sizes.filter (fun n => n ≠ 1)).dedup with
  | [] => some none
  | [n] => some (some n)
  | _ => none

/-- Collect the mapped batch axes: one `jax.vmap` layer per axis whose
size is not 1 in some argument, the output batch axes keeping the
original axis order; `none` when some axis has inconsistent mapped
sizes. -/
def collectMapped : List (List ℕ) → Option (List ℕ)
  | [] => some []
  | axis :: rest => do
      let m ← mappedSize axis
      let tail ← collectMapped rest
      match m with
      | none => pure tail
      | some n => pure (n :: tail)

/-- Batch-shape semantics of the wrapper built by `vectorize_diffeq`,
applied to arguments with the given full shapes (paired with their core
ranks).  Returns the batch shape of the vectorized solution, or `none`
when the Python code raises: `zip(*rev_filled_shapes, strict=True)`
demands that all padded batch ranks be equal, and `jax.vmap` demands
consistent mapped-axis sizes. -/
def vectorizeBatchShape (args : List (List ℕ × ℕ)) : Option (List ℕ) :=
  let filled := args.map (fun a => filledShape (noncoreShape a.1 a.2))
  let rank := (filled.headD []).length
  if filled.all (fun f => f.length = rank) then
    collectMapped ((List.range rank).map (fun i =>
      filled.map (fun f => f.getD i 1)))
  else none

/-- The reshape `xp.atleast_2d`. -/
def atleast2d (shape : List ℕ) : List ℕ :=
  match shape with
  | [] => [1, 1]
  | [n] => [1, n]
  | s => s

/-- Remove the second-to-last axis (`w[..., -1, :]`). -/
def dropPenultimate (shape : List ℕ) : List ℕ :=
  shape.dropLast.dropLast ++ [shape.getLastD 0]

/-- Shape semantics of the base case of `Integrator.__call__`
(lines 371-428 of `core.py`): given the full shapes of `w0`, `t0`, `t1`
and (optionally) `saveat`, produce the shape of the returned
phase-space position (its `t` array: batch axes plus, when `saveat` is
given, the trailing time axis), or `none` when the call raises.

Mirrors, in order: `ts = [t1] if saveat is None else saveat`,
`xp.atleast_2d(ts)`, the vectorized solve, the concatenation
`w = concat((ts[..., None], ys), -1)`, `w = w[None] if w0.shape[0] == 1`,
and `w = w[..., -1, :] if saveat is None`. -/
def integrateShape (w0s t0s t1s : List ℕ) (saveat : Option (List ℕ)) :
    Option (List ℕ) := do
  let tsShape := match saveat with
    | none => 1 :: t1s
    | some s => s
  let ts2 := atleast2d tsShape
  let batch ← vectorizeBatchShape [(w0s, 1), (t0s, 0), (t1s, 0), (ts2, 1)]
  -- the scalar solve returns `ts : (T,)`, `ys : (T, 6)`
  let tlen := ts2.getLastD 0
  let w := batch ++ [tlen, 7]
  let w := if w0s.headD 0 = 1 then 1 :: w else w
  let w := match saveat with
    | none => dropPenultimate w
    | some _ => w
  return w.dropLast

/-! ## Value model of the integrator

Values are exact rationals.  A raw phase-space state is a 6-vector
`[qx, qy, qz, px, py, pz]`; concatenating the solution times gives
7-vectors `[t, q(3), p(3)]`. -/

abbrev Vec3 := Fin 3 → ℚ

abbrev Vec6 := Fin 6 → ℚ

abbrev Vec7 := Fin 7 → ℚ

/-- The concatenation `xp.concat((t[..., None], y), axis=-1)` at one sample: prepend the
time to the 6-vector. -/
def row (t : ℚ) (y : Vec6) : Vec7 :=
  fun i => if h : i.1 = 0 then t else y ⟨i.1 - 1, by omega⟩

/-- The slice `w[..., 0]`. -/
def tOf (r : Vec7) : ℚ := r 0

/-- The slice `w[..., 1:4]`. -/
def qOf (r : Vec7) : Vec3 := fun i => r ⟨i.1 + 1, by omega⟩

/-- The slice `w[..., 4:7]`. -/
def pOf (r : Vec7) : Vec3 := fun i => r ⟨i.1 + 4, by omega⟩

/-- First three components of a 6-vector (the position part). -/
def qPart (y : Vec6) : Vec3 := fun i => y ⟨i.1, by omega⟩

/-- Last three components of a 6-vector (the velocity part). -/
def pPart (y : Vec6) : Vec3 := fun i => y ⟨i.1 + 3, by omega⟩

/-- A possibly batched value: batch shape `()` or a single leading batch
axis.  (`vectorize_diffeq` rejects higher batch ranks for the inputs the
claims are about; see `integrateShape`.) -/
inductive Batched (α : Type) where
  | scalar : α → Batched α
  | vec : List α → Batched α
deriving DecidableEq

/-- Number of flattened batch elements. -/
def Batched.numElems : Batched α → ℕ
  | .scalar _ => 1
  | .vec l => l.length

/-- An array of batch rank 0, 1 or 2, as produced by the orchestrator
(`*batch` axes of rank at most 1, plus an optional trailing time axis). -/
inductive A2 (α : Type) where
  | r0 : α → A2 α
  | r1 : List α → A2 α
  | r2 : List (List α) → A2 α
deriving DecidableEq

/-- Number of axes of an `A2` array. -/
def A2.rank : A2 α → ℕ
  | .r0 _ => 0
  | .r1 _ => 1
  | .r2 _ => 2

/-- A `unxt.Quantity` scalar: a value together with its unit, a positive
rational scale factor relative to a fixed reference unit of the same
dimension.  `Quantity.constructor(q, u)` converts the value to unit `u`:
multiply by the scale of the old unit, divide by the scale of the new. -/
structure Quantity where
  val : ℚ
  unit : ℚ
deriving DecidableEq

/-- A `unxt.Quantity` holding a vector of values. -/
structure QuantityVec where
  val : List ℚ
  unit : ℚ
deriving DecidableEq

/-- Convert a scalar quantity to the unit with scale `u`. -/
def Quantity.toUnit (q : Quantity) (u : ℚ) : ℚ := q.val * q.unit / u

/-- A `unxt.AbstractUnitSystem`: scales for the dimensions the
integrator touches ("length", "speed", "time"). -/
structure UnitSystem where
  length : ℚ
  speed : ℚ
  time : ℚ
deriving DecidableEq

/-- The solver algorithm configured on the `Integrator` (`self.Solver`,
a `diffrax.AbstractSolver` class; default `diffrax.Dopri8`, a high-order
explicit Runge-Kutta method). -/
inductive SolverType where
  | Dopri8 : SolverType
  | otherSolver : String → SolverType
deriving DecidableEq

/-- The step-size controller (`diffrax.PIDController(rtol=..., atol=...)`). -/
inductive StepSizeController where
  | PID : (rtol : ℚ) → (atol : ℚ) → StepSizeController
deriving DecidableEq

/-- The solver instance `self.Solver(**self.solver_kw)`. -/
structure SolverInst where
  alg : SolverType
  kw : List (String × String)
deriving DecidableEq

/-- The `diffrax.SaveAt(t0=False, t1=False, ts=ts, dense=interpolated)`
argument. -/
structure SaveAtSpec where
  t0 : Bool
  t1 : Bool
  ts : List ℚ
  dense : Bool
deriving DecidableEq

/-- The full argument record of one `diffrax.diffeqsolve` invocation, as
assembled by `solve_diffeq` (lines 388-403 of `core.py`). -/
structure DiffeqCall where
  solver : SolverInst
  t0 : ℚ
  t1 : ℚ
  y0 : Vec6
  dt0 : Option ℚ
  args : List ℚ
  saveat : SaveAtSpec
  stepsize_controller : StepSizeController
  kw : Kw
deriving DecidableEq

/-- The `Integrator` `eqx.Module` configuration (lines 222-236 of
`core.py`), with its class-level defaults. -/
structure Integrator where
  Solver : SolverType := .Dopri8
  stepsize_controller : StepSizeController := .PID (1 / 10000000) (1 / 10000000)
  diffeq_kw : Kw := [("max_steps", none), ("event", none)]
  solver_kw : List (String × String) := [("scan_kind", "bounded")]
deriving DecidableEq

/-- The returned `gc.PhaseSpacePosition` (or its interpolated variant):
unit-tagged `t`, `q`, `p` arrays plus, when interpolated, the
`added_ndim` bookkeeping of the attached `Interpolant`
(`_process_interp`, lines 241-254: `added_ndim = 1` iff the batch shape
of `w0` was `()` or `(1,)`). -/
structure PhaseSpacePositionOut where
  t : A2 ℚ
  tUnit : ℚ
  q : A2 Vec3
  qUnit : ℚ
  p : A2 Vec3
  pUnit : ℚ
  interpolant : Option ℕ
deriving DecidableEq

/-- Modelled from the spec: the external adaptive solver is a black box
whose `Solution` is "an ordered sequence of (time, 6-vector) pairs" at
the requested save times.  An abstract flow map
`flow y0 t0 t = state at time t of the trajectory started at (t0, y0)`
stands in for its numerics; a solve saving at `ts` returns the rows
`[t, flow y0 t0 t]` for `t` in `ts`, in order. -/
def solveRows (flow : Vec6 → ℚ → ℚ → Vec6) (y0 : Vec6) (t0 : ℚ)
    (ts : List ℚ) : List Vec7 :=
  ts.map (fun t => row t (flow y0 t0 t))

/-- The base case of `Integrator.__call__` (lines 259-428 of `core.py`)
over the value model, for inputs of batch rank at most 1 (the ranks the
vectorizer accepts; see `integrateShape`).  Returns the phase-space
result together with the list of `diffrax.diffeqsolve` argument records,
one per flattened batch element, or `none` when the call raises.

Branches mirror the source:
* `t0_`, `t1_`, `ts` are converted to `units["time"]`, with
  `ts = [t1_]` when `saveat is None`;
* `diffeq_kw` is processed by `processDiffeqKw`;
* the vectorized solve maps the scalar solve over a non-trivial batch
  axis, after squeezing a size-1 batch axis away (so a `(1,)` batch is
  solved once, like a scalar);
* `w = w[None] if w0.shape[0] == 1 else w` restores the size-1 batch
  axis (for a scalar `w0`, `w0.shape[0]` is 6, never 1);
* `w = w[..., -1, :] if saveat is None else w` drops the time axis;
* `t`, `q`, `p` are the unit-tagged slices `w[..., 0]`, `w[..., 1:4]`,
  `w[..., 4:7]`. -/
def integratorCall (flow : Vec6 → ℚ → ℚ → Vec6) (cfg : Integrator)
    (w0 : Batched Vec6) (t0 t1 : Quantity) (saveat : Option QuantityVec)
    (units : UnitSystem) (interpolated : Bool) :
    Option (PhaseSpacePositionOut × List DiffeqCall) := do
  let time := units.time
  let t0v := t0.toUnit time
  let t1v := t1.toUnit time
  let tsv : List ℚ := match saveat with
    | none => [t1v]
    | some sv => sv.val.map (fun x => x * sv.unit / time)
  let kw ← processDiffeqKw cfg.diffeq_kw interpolated
  let solver : SolverInst := ⟨cfg.Solver, cfg.solver_kw⟩
  let mkCall : Vec6 → DiffeqCall := fun y0 =>
    { solver := solver, t0 := t0v, t1 := t1v, y0 := y0, dt0 := none,
      args := [], saveat := ⟨false, false, tsv, interpolated⟩,
      stepsize_controller := cfg.stepsize_controller, kw := kw }
  let solveOne : Vec6 → List Vec7 := fun y0 => solveRows flow y0 t0v tsv
  let (wB, calls) : Batched (List Vec7) × List DiffeqCall :=
    match w0 with
    | .scalar y0 => (.scalar (solveOne y0), [mkCall y0])
    | .vec ys =>
        if ys.length = 1 then
          -- the size-1 batch axis is squeezed, the solve is scalar, and
          -- `w[None]` (since `w0.shape[0] == 1`) adds the axis back
          let y0 := ys.headD (fun _ => 0)
          (.vec [solveOne y0], [mkCall y0])
        else (.vec (ys.map solveOne), ys.map mkCall)
  let lastRow : List Vec7 → Vec7 := fun rows => rows.getLastD (fun _ => 0)
  let addedNdim : ℕ := match w0 with
    | .scalar _ => 1
    | .vec ys => if ys.length = 1 then 1 else 0
  let interp : Option ℕ := if interpolated then some addedNdim else none
  let mk : A2 ℚ → A2 Vec3 → A2 Vec3 → PhaseSpacePositionOut := fun t q p =>
    { t := t, tUnit := units.time, q := q, qUnit := units.length,
      p := p, pUnit := units.speed, interpolant := interp }
  let res : PhaseSpacePositionOut := match saveat, wB with
    | none, .scalar rows =>
        mk (.r0 (tOf (lastRow rows))) (.r0 (qOf (lastRow rows)))
          (.r0 (pOf (lastRow rows)))
    | none, .vec l =>
        mk (.r1 (l.map (fun rows => tOf (lastRow rows))))
          (.r1 (l.map (fun rows => qOf (lastRow rows))))
          (.r1 (l.map (fun rows => pOf (lastRow rows))))
    | some _, .scalar rows =>
        mk (.r1 (rows.map tOf)) (.r1 (rows.map qOf)) (.r1 (rows.map pOf))
    | some _, .vec l =>
        mk (.r2 (l.map (fun rows => rows.map tOf)))
          (.r2 (l.map (fun rows => rows.map qOf)))
          (.r2 (l.map (fun rows => rows.map pOf)))
  return (res, calls)

/-! ## Structured and composite dispatches -/

/-- A `gc.PhaseSpacePosition` used as input: unit-tagged position and
velocity 3-vectors (the `t` attribute is not used by the integrator),
batched like the raw 6-vector. -/
structure PhaseSpacePositionIn where
  qp : Batched (Vec3 × Vec3)
  qUnit : ℚ
  pUnit : ℚ
deriving DecidableEq

/-- Join converted position and velocity parts into a raw 6-vector. -/
def joinQP (q p : Vec3) : Vec6 :=
  fun i => if h : i.1 < 3 then q ⟨i.1, h⟩ else p ⟨i.1 - 3, by omega⟩

/-- Modelled from the spec: `w0.w(units=units)` lives in the external
`galax.coordinates` collaborator; per the spec it converts the
structured position to "the raw 6-vector in `units`", i.e. the position
part in `units["length"]` and the velocity part in `units["speed"]`. -/
def PhaseSpacePositionIn.w (w0 : PhaseSpacePositionIn) (units : UnitSystem) :
    Batched Vec6 :=
  let conv : Vec3 × Vec3 → Vec6 := fun qp =>
    joinQP (fun i => qp.1 i * w0.qUnit / units.length)
      (fun i => qp.2 i * w0.pUnit / units.speed)
  match w0.qp with
  | .scalar qp => .scalar (conv qp)
  | .vec l => .vec (l.map conv)

/-- The `AbstractPhaseSpacePosition` dispatch of `Integrator.__call__`
(lines 430-477 of `core.py`):

```
return self(F, w0.w(units=units), t0, t1, saveat,
            units=units, interpolated=interpolated)
```
-/
def integratorCallStructured (flow : Vec6 → ℚ → ℚ → Vec6)
    (cfg : Integrator) (w0 : PhaseSpacePositionIn) (t0 t1 : Quantity)
    (saveat : Option QuantityVec) (units : UnitSystem)
    (interpolated : Bool) :
    Option (PhaseSpacePositionOut × List DiffeqCall) :=
  integratorCall flow cfg (w0.w units) t0 t1 saveat units interpolated

/-- Following the spec's words, for comparison with the source: "If `w0`
is a StructuredPhaseSpacePosition: convert to the raw 6-vector in
`units`, then recurse into the raw-vector case." -/
def integrateStructuredSpec (flow : Vec6 → ℚ → ℚ → Vec6)
    (cfg : Integrator) (w0 : PhaseSpacePositionIn) (t0 t1 : Quantity)
    (saveat : Option QuantityVec) (units : UnitSystem)
    (interpolated : Bool) :
    Option (PhaseSpacePositionOut × List DiffeqCall) :=
  let raw : Batched Vec6 := w0.w units
  integratorCall flow cfg raw t0 t1 saveat units interpolated

/-- The `AbstractCompositePhaseSpacePosition` dispatch of
`Integrator.__call__` (lines 479-537 of `core.py`): a composite is an
ordered mapping of names to phase-space positions, and

```
return gc.CompositePhaseSpacePosition(
    **{k: self(F, v, t0, t1, saveat, units=units, interpolated=interpolated)
       for k, v in w0.items()})
```

The dict comprehension preserves entry order; a raising entry aborts the
whole call. -/
def integratorCallComposite (flow : Vec6 → ℚ → ℚ → Vec6)
    (cfg : Integrator) (w0 : List (String × PhaseSpacePositionIn))
    (t0 t1 : Quantity) (saveat : Option QuantityVec) (units : UnitSystem)
    (interpolated : Bool) :
    Option (List (String × PhaseSpacePositionOut)) :=
  match w0 with
  | [] => some []
  | kv :: rest => do
      let rc ← integratorCallStructured flow cfg kv.2 t0 t1 saveat units
        interpolated
      let out ← integratorCallComposite flow cfg rest t0 t1 saveat units
        interpolated
      pure ((kv.1, rc.1) :: out)

/-! ## Derived-quantity functions (`funcs.py`)

The analytic formulas are modelled over exact reals. -/

/-- Physical dimension as exponents of length and time; multiplying
quantities adds exponents (`unxt` unit algebra). -/
structure Dim where
  len : ℤ
  time : ℤ
deriving DecidableEq

/-- A unit-tagged rational 3-vector. -/
structure Q3 where
  val : Vec3
  dim : Dim
deriving DecidableEq

/-- Build a rational 3-vector from its components. -/
def v3 (a b c : ℚ) : Vec3 :=
  fun i => if i.1 = 0 then a else if i.1 = 1 then b else c

/-- The cross product `jnp.linalg.cross` on rational 3-vectors. -/
def crossQ (x v : Vec3) : Vec3 :=
  v3 (x 1 * v 2 - x 2 * v 1) (x 2 * v 0 - x 0 * v 2)
    (x 0 * v 1 - x 1 * v 0)

/-- The function `specific_angular_momentum(x, v)` (lines 29-59 of `funcs.py`):
`return jnp.linalg.cross(x, v)`, with the unit algebra multiplying the
two input units. -/
def specific_angular_momentum (x v : Q3) : Q3 :=
  ⟨crossQ x.val v.val,
    ⟨x.dim.len + v.dim.len, x.dim.time + v.dim.time⟩⟩

abbrev Vec3R := Fin 3 → ℝ

/-- The norm `jnp.linalg.vector_norm(x, axis=-1)` on a real 3-vector. -/
noncomputable def norm3 (x : Vec3R) : ℝ :=
  Real.sqrt (x 0 ^ 2 + x 1 ^ 2 + x 2 ^ 2)

/-- Build a real 3-vector from its components. -/
def v3R (a b c : ℝ) : Vec3R :=
  fun i => if i.1 = 0 then a else if i.1 = 1 then b else c

/-- The cross product `jnp.linalg.cross` on real 3-vectors. -/
def crossR (x v : Vec3R) : Vec3R :=
  v3R (x 1 * v 2 - x 2 * v 1) (x 2 * v 0 - x 0 * v 2)
    (x 0 * v 1 - x 1 * v 0)

/-- The function `_orbital_angular_frequency(x, v)` (lines 145-175 of `funcs.py`):
`r = vector_norm(x)`; `omega = cross(x, v) / r**2`;
`return vector_norm(omega)`. -/
noncomputable def orbital_angular_frequency (x v : Vec3R) : ℝ :=
  let r := norm3 x
  norm3 (fun i => crossR x v i / r ^ 2)

/-- Modelled from the spec: the potential-field collaborator
(`galax.potential`, outside `src/`) supplies "a second-derivative /
curvature query `d2potential_dr2(potential, x, t) -> scalar` plus a
`gravitational_constant` accessible from the potential's constants". -/
structure Potential where
  G : ℝ
  d2potential_dr2 : Vec3R → ℝ → ℝ

/-- The cube root `jnp.cbrt`: the real cube root, odd and defined for negative
arguments. -/
noncomputable def cbrt (x : ℝ) : ℝ :=
  if 0 ≤ x then x ^ ((1 : ℝ) / 3) else -((-x) ^ ((1 : ℝ) / 3))

/-- The function `tidal_radius(potential, x, v, prog_mass, t)` (lines 205-250 of
`funcs.py`):

```
omega = _orbital_angular_frequency(x, v)
d2phi_dr2 = d2potential_dr2(potential, x, t)
return jnp.cbrt(potential.constants["G"] * prog_mass
                / (omega**2 - d2phi_dr2))
```
-/
noncomputable def tidal_radius (pot : Potential) (x v : Vec3R)
    (prog_mass t : ℝ) : ℝ :=
  let omega := orbital_angular_frequency x v
  let d2phi_dr2 := pot.d2potential_dr2 x t
  cbrt (pot.G * prog_mass / (omega ^ 2 - d2phi_dr2))

/-- Modelled from the spec: `cx.vecs.normalize_vector` lives in the
external `coordinax` collaborator; it returns the unit vector along its
argument, `x / |x|`. -/
noncomputable def normalize_vector (x : Vec3R) : Vec3R :=
  fun i => x i / norm3 x

/-- The function `lagrange_points(potential, x, v, prog_mass, t)` (lines 256-305 of
`funcs.py`):

```
r_hat = cx.vecs.normalize_vector(x)
r_t = tidal_radius(potential, x, v, prog_mass, t)
L_1 = x - r_hat * r_t
L_2 = x + r_hat * r_t
return L_1, L_2
```
-/
noncomputable def lagrange_points (pot : Potential) (x v : Vec3R)
    (prog_mass t : ℝ) : Vec3R × Vec3R :=
  let r_hat := normalize_vector x
  let r_t := tidal_radius pot x v prog_mass t
  (fun i => x i - r_hat i * r_t, fun i => x i + r_hat i * r_t)

/-! ## Helper lemmas -/

theorem tOf_row (t : ℚ) (y : Vec6) : tOf (row t y) = t := rfl

theorem qOf_row (t : ℚ) (y : Vec6) : qOf (row t y) = qPart y := by
  funext i
  rfl

theorem pOf_row (t : ℚ) (y : Vec6) : pOf (row t y) = pPart y := by
  funext i
  rfl

/-- Sequence fallible results over a list, aborting at the first
failure (the effect of a Python comprehension whose body may raise). -/
def seqEntries {α β : Type} (f : α → Option β) : List α → Option (List β)
  | [] => some []
  | a :: l => do
      let b ← f a
      let bs ← seqEntries f l
      pure (b :: bs)

/-- The flattened batch elements of a batched input, in order. -/
def Batched.elems : Batched α → List α
  | .scalar a => [a]
  | .vec l => l

/-! ## Claims -/

/-- C1, counterexample.  The claim asserts that a `(N, M)`-shaped batch
of initial 6-vectors (here `N = 2`, `M = 3`, with scalar `t0`, `t1` and
no `saveat`) integrates successfully with batch shape `(N, M)` restored,
because the vectorizer allegedly pads every argument's batch shape up to
the maximum batch rank.  In fact `vectorize_diffeq` pads only up to rank
one (`pad_ndim = 1 - len(noncore_shape)`), and
`zip(*rev_filled_shapes, strict=True)` then raises because `w0`
contributes a rank-2 batch while `t0`, `t1` and `ts` contribute rank-1
batches: the call fails. -/
theorem c1_batch_rank_two_raises :
    integrateShape [2, 3, 6] [] [] none = none := by decide

/-- C1, amended.  For batch shapes `B` in `{(), (1,), (N,)}` (batch rank
at most one), integrating a `B`-shaped batch of initial 6-vectors with
scalar `t0`, `t1` and no `saveat` succeeds and returns a result whose
batch shape is exactly `B`: the size-1 batch axis is squeezed before the
solve and restored by `w[None]`, and a non-trivial axis is mapped by
`jax.vmap` and kept. -/
theorem c1_shape_fidelity_rank_le_one (n : ℕ) :
    integrateShape [6] [] [] none = some [] ∧
    integrateShape [1, 6] [] [] none = some [1] ∧
    integrateShape [n, 6] [] [] none = some [n] := by
  refine ⟨by decide, by decide, ?_⟩
  rcases eq_or_ne n 1 with h | h
  · subst h; decide
  · simp [integrateShape, vectorizeBatchShape, filledShape, noncoreShape,
      mappedSize, atleast2d, dropPenultimate, collectMapped,
      List.range_succ, h]

/-- C2, counterexample.  The claim asserts that with `interpolated=True`
a configured maximum-step-count limit is removed from the options passed
to the solver.  With `diffeq_kw = {"max_steps": 1000, "event": None}`
the guard `diffeq_kw.get("max_steps") is None` is false, so nothing is
popped: the sole `diffrax.diffeqsolve` invocation still receives
`max_steps = 1000`. -/
theorem c2_configured_max_steps_kept :
    (integratorCall (fun y _ _ => y)
        { diffeq_kw := [("max_steps", some 1000), ("event", none)] }
        (.scalar (fun _ => 0)) ⟨0, 1⟩ ⟨1, 1⟩ none ⟨1, 1, 1⟩ true).map
      (fun rc => rc.2.map (fun c => pyGet c.kw "max_steps")) =
    some [some 1000] := by decide

/-- C2, amended.  With `interpolated=True` the `max_steps` key is
removed only when its configured value is `None` (in particular in the
default configuration); a configured numeric limit is passed through
unchanged, and with `interpolated=False` the options are always passed
through unchanged. -/
theorem c2_max_steps_removed_only_when_none (n : ℕ) (rest kw : Kw) :
    processDiffeqKw (("max_steps", some n) :: rest) true =
      some (("max_steps", some n) :: rest) ∧
    processDiffeqKw (("max_steps", (none : KwVal)) :: rest) true =
      some rest ∧
    processDiffeqKw kw false = some kw := by
  refine ⟨?_, ?_, ?_⟩
  · simp [processDiffeqKw, pyGet, List.lookup]
  · simp [processDiffeqKw, pyGet, pyPop, pyContains, List.lookup,
      List.eraseP_cons]
  · simp [processDiffeqKw]

/-- C6.  The `AbstractPhaseSpacePosition` dispatch of
`Integrator.__call__` is a pure delegation: it equals the raw-vector
base case applied to `w0.w(units=units)` with every other argument
passed through unchanged, which is also what the spec's words
("convert to the raw 6-vector in `units`, then recurse") prescribe. -/
theorem c6_structured_delegation (flow : Vec6 → ℚ → ℚ → Vec6)
    (cfg : Integrator) (w0 : PhaseSpacePositionIn) (t0 t1 : Quantity)
    (saveat : Option QuantityVec) (units : UnitSystem)
    (interpolated : Bool) :
    integratorCallStructured flow cfg w0 t0 t1 saveat units interpolated =
      integratorCall flow cfg (w0.w units) t0 t1 saveat units
        interpolated ∧
    integratorCallStructured flow cfg w0 t0 t1 saveat units interpolated =
      integrateStructuredSpec flow cfg w0 t0 t1 saveat units
        interpolated :=
  ⟨rfl, rfl⟩

/-- C8.  `specific_angular_momentum(x, v)` is the vector cross product
of position and velocity: at `x = (8, 0, 0) m`, `v = (0, 8, 0) m/s` it
is exactly `(0, 0, 64) m²/s`, and in general its value agrees with the
mathematical cross product. -/
theorem c8_specific_angular_momentum_cross :
    specific_angular_momentum ⟨v3 8 0 0, ⟨1, 0⟩⟩ ⟨v3 0 8 0, ⟨1, -1⟩⟩ =
      ⟨v3 0 0 64, ⟨2, -1⟩⟩ ∧
    ∀ x v : Q3,
      (specific_angular_momentum x v).val = crossProduct x.val v.val := by
  constructor
  · have hval : crossQ (v3 8 0 0) (v3 0 8 0) = v3 0 0 64 := by
      funext i
      fin_cases i <;> norm_num [crossQ, v3]
    simp only [specific_angular_momentum, hval]
    norm_num
  · intro x v
    rw [cross_apply]
    funext i
    fin_cases i <;> rfl

/-- C3.  Integrating a composite phase-space position equals integrating
every named entry alone — with the identical vector field, times,
save-times, unit system and interpolation flag, and no cross-entry
coupling — sequencing the per-entry results (a failing entry aborts the
whole call) and zipping the original keys back on in their original
order. -/
theorem c3_composite_decomposition (flow : Vec6 → ℚ → ℚ → Vec6)
    (cfg : Integrator) (w0 : List (String × PhaseSpacePositionIn))
    (t0 t1 : Quantity) (saveat : Option QuantityVec) (units : UnitSystem)
    (interpolated : Bool) :
    integratorCallComposite flow cfg w0 t0 t1 saveat units interpolated =
      (seqEntries (fun kv =>
        (integratorCallStructured flow cfg kv.2 t0 t1 saveat units
          interpolated).map Prod.fst) w0).map
        (fun rs => (w0.map Prod.fst).zip rs) := by
  induction w0 with
  | nil => rfl
  | cons kv rest ih =>
      cases hf : integratorCallStructured flow cfg kv.2 t0 t1 saveat units
        interpolated with
      | none => simp [integratorCallComposite, seqEntries, hf]
      | some rc =>
          cases hrest : seqEntries (fun kv =>
            (integratorCallStructured flow cfg kv.2 t0 t1 saveat units
              interpolated).map Prod.fst) rest with
          | none =>
              rw [integratorCallComposite, ih]
              simp [seqEntries, hf, hrest]
          | some rs =>
              rw [integratorCallComposite, ih]
              simp [seqEntries, hf, hrest]

/-- The expected solver-invocation record for one flattened batch
element (closed form of `solve_diffeq`'s argument assembly). -/
def expectedCall (cfg : Integrator) (t0 t1 : Quantity)
    (saveat : Option QuantityVec) (units : UnitSystem) (interp : Bool)
    (kw : Kw) (y0 : Vec6) : DiffeqCall :=
  { solver := ⟨cfg.Solver, cfg.solver_kw⟩,
    t0 := t0.toUnit units.time, t1 := t1.toUnit units.time, y0 := y0,
    dt0 := none, args := [],
    saveat := ⟨false, false,
      (match saveat with
        | none => [t1.toUnit units.time]
        | some sv => sv.val.map (fun x => x * sv.unit / units.time)),
      interp⟩,
    stepsize_controller := cfg.stepsize_controller, kw := kw }

/-- Closed form of the base-case `Integrator.__call__`: the processed
keyword options determine success; on success the call produces one
solver invocation per flattened batch element and assembles the result
arrays directly from the save times and the flow map. -/
theorem integratorCall_char (flow : Vec6 → ℚ → ℚ → Vec6)
    (cfg : Integrator) (w0 : Batched Vec6) (t0 t1 : Quantity)
    (saveat : Option QuantityVec) (units : UnitSystem) (interp : Bool) :
    integratorCall flow cfg w0 t0 t1 saveat units interp =
      (processDiffeqKw cfg.diffeq_kw interp).map (fun kw =>
        ({ t := match saveat, w0 with
             | none, .scalar _ => .r0 (t1.toUnit units.time)
             | none, .vec ys =>
                 .r1 (ys.map (fun _ => t1.toUnit units.time))
             | some sv, .scalar _ =>
                 .r1 (sv.val.map (fun x => x * sv.unit / units.time))
             | some sv, .vec ys =>
                 .r2 (ys.map (fun _ =>
                   sv.val.map (fun x => x * sv.unit / units.time))),
           tUnit := units.time,
           q := match saveat, w0 with
             | none, .scalar y0 =>
                 .r0 (qPart (flow y0 (t0.toUnit units.time)
                   (t1.toUnit units.time)))
             | none, .vec ys =>
                 .r1 (ys.map (fun y0 => qPart (flow y0 (t0.toUnit units.time)
                   (t1.toUnit units.time))))
             | some sv, .scalar y0 =>
                 .r1 ((sv.val.map (fun x => x * sv.unit / units.time)).map
                   (fun t => qPart (flow y0 (t0.toUnit units.time) t)))
             | some sv, .vec ys =>
                 .r2 (ys.map (fun y0 =>
                   (sv.val.map (fun x => x * sv.unit / units.time)).map
                     (fun t => qPart (flow y0 (t0.toUnit units.time) t)))),
           qUnit := units.length,
           p := match saveat, w0 with
             | none, .scalar y0 =>
                 .r0 (pPart (flow y0 (t0.toUnit units.time)
                   (t1.toUnit units.time)))
             | none, .vec ys =>
                 .r1 (ys.map (fun y0 => pPart (flow y0 (t0.toUnit units.time)
                   (t1.toUnit units.time))))
             | some sv, .scalar y0 =>
                 .r1 ((sv.val.map (fun x => x * sv.unit / units.time)).map
                   (fun t => pPart (flow y0 (t0.toUnit units.time) t)))
             | some sv, .vec ys =>
                 .r2 (ys.map (fun y0 =>
                   (sv.val.map (fun x => x * sv.unit / units.time)).map
                     (fun t => pPart (flow y0 (t0.toUnit units.time) t)))),
           pUnit := units.speed,
           interpolant := if interp then
               some (match w0 with
                 | .scalar _ => 1
                 | .vec ys => if ys.length = 1 then 1 else 0)
             else none },
         w0.elems.map (expectedCall cfg t0 t1 saveat units interp kw))) := by
  cases hk : processDiffeqKw cfg.diffeq_kw interp with
  | none => simp [integratorCall, hk]
  | some k =>
      cases w0 with
      | scalar y0 =>
          cases saveat with
          | none =>
              simp [integratorCall, hk, Batched.elems, expectedCall,
                solveRows, tOf_row, qOf_row, pOf_row]
          | some sv =>
              simp [integratorCall, hk, Batched.elems, expectedCall,
                solveRows, tOf_row, qOf_row, pOf_row, List.map_map,
                Function.comp]
      | vec ys =>
          rcases eq_or_ne ys.length 1 with h1 | h1
          · obtain ⟨y, rfl⟩ := List.length_eq_one.mp h1
            cases saveat with
            | none =>
                simp [integratorCall, hk, Batched.elems, expectedCall,
                  solveRows, tOf_row, qOf_row, pOf_row]
            | some sv =>
                simp [integratorCall, hk, Batched.elems, expectedCall,
                  solveRows, tOf_row, qOf_row, pOf_row, List.map_map,
                  Function.comp]
          · cases saveat with
            | none =>
                simp [integratorCall, hk, h1, Batched.elems, expectedCall,
                  solveRows, tOf_row, qOf_row, pOf_row, List.map_map,
                  Function.comp_def, List.map_const']
            | some sv =>
                simp [integratorCall, hk, h1, Batched.elems, expectedCall,
                  solveRows, tOf_row, qOf_row, pOf_row, List.map_map,
                  Function.comp_def, List.map_const']

/-- C7.  With the default `Integrator` configuration, every base-case
call succeeds and invokes the external adaptive solver exactly once per
flattened batch element, each invocation carrying the configured solver
algorithm (`diffrax.Dopri8` built with `scan_kind="bounded"`), the
configured step-size controller (`diffrax.PIDController` with
`rtol = atol = 1e-7`), automatic initial step selection (`dt0=None`) and
no extra solver arguments (`args=()`). -/
theorem c7_solver_invocation_defaults (flow : Vec6 → ℚ → ℚ → Vec6)
    (w0 : Batched Vec6) (t0 t1 : Quantity) (saveat : Option QuantityVec)
    (units : UnitSystem) (interpolated : Bool) :
    ∃ res calls,
      integratorCall flow {} w0 t0 t1 saveat units interpolated =
        some (res, calls) ∧
      calls.length = w0.numElems ∧
      ∀ c ∈ calls,
        c.solver = ⟨.Dopri8, [("scan_kind", "bounded")]⟩ ∧
        c.stepsize_controller = .PID (1 / 10000000) (1 / 10000000) ∧
        c.dt0 = none ∧ c.args = [] := by
  have hk : ∃ k, processDiffeqKw ({} : Integrator).diffeq_kw interpolated =
      some k := by
    cases interpolated with
    | false => exact ⟨_, rfl⟩
    | true => exact ⟨_, rfl⟩
  obtain ⟨k, hk⟩ := hk
  have hchar := integratorCall_char flow {} w0 t0 t1 saveat units
    interpolated
  rw [hk] at hchar
  refine ⟨_, _, hchar, ?_, ?_⟩
  · cases w0 <;> simp [Batched.elems, Batched.numElems]
  · intro c hc
    obtain ⟨y0, _, rfl⟩ := List.mem_map.mp hc
    exact ⟨rfl, rfl, rfl, rfl⟩

/-- C4.  When `saveat` is omitted, the single save-time `[t1]`
(converted to the unit system's time unit) is what every solver
invocation receives, and the result holds exactly the state at `t1`:
its `t`, `q`, `p` arrays have the batch shape of `w0` with no extra
leading time axis, `t` is everywhere the converted `t1`, and `q`, `p`
are the flow evaluated at `t1`. -/
theorem c4_default_save_behavior (flow : Vec6 → ℚ → ℚ → Vec6)
    (cfg : Integrator) (w0 : Batched Vec6) (t0 t1 : Quantity)
    (units : UnitSystem) (interpolated : Bool) :
    integratorCall flow cfg w0 t0 t1 none units interpolated =
      (processDiffeqKw cfg.diffeq_kw interpolated).map (fun kw =>
        ({ t := match w0 with
             | .scalar _ => .r0 (t1.toUnit units.time)
             | .vec ys => .r1 (ys.map (fun _ => t1.toUnit units.time)),
           tUnit := units.time,
           q := match w0 with
             | .scalar y0 => .r0 (qPart (flow y0 (t0.toUnit units.time)
                 (t1.toUnit units.time)))
             | .vec ys => .r1 (ys.map (fun y0 =>
                 qPart (flow y0 (t0.toUnit units.time)
                   (t1.toUnit units.time)))),
           qUnit := units.length,
           p := match w0 with
             | .scalar y0 => .r0 (pPart (flow y0 (t0.toUnit units.time)
                 (t1.toUnit units.time)))
             | .vec ys => .r1 (ys.map (fun y0 =>
                 pPart (flow y0 (t0.toUnit units.time)
                   (t1.toUnit units.time)))),
           pUnit := units.speed,
           interpolant := if interpolated then
               some (match w0 with
                 | .scalar _ => 1
                 | .vec ys => if ys.length = 1 then 1 else 0)
             else none },
         w0.elems.map (expectedCall cfg t0 t1 none units interpolated
           kw))) := by
  have h := integratorCall_char flow cfg w0 t0 t1 none units interpolated
  cases w0 <;> simpa using h

/-- C5.  With a `saveat` sequence, every solver invocation receives the
requested save-times converted to the unit system's time unit, in the
given order, and the returned time axis is exactly that converted list
(so its length is the number of requested times); `q`, `p` hold one
flow state per requested time, in order. -/
theorem c5_save_time_fidelity (flow : Vec6 → ℚ → ℚ → Vec6)
    (cfg : Integrator) (w0 : Batched Vec6) (t0 t1 : Quantity)
    (sv : QuantityVec) (units : UnitSystem) (interpolated : Bool) :
    integratorCall flow cfg w0 t0 t1 (some sv) units interpolated =
      (processDiffeqKw cfg.diffeq_kw interpolated).map (fun kw =>
        ({ t := match w0 with
             | .scalar _ =>
                 .r1 (sv.val.map (fun x => x * sv.unit / units.time))
             | .vec ys => .r2 (ys.map (fun _ =>
                 sv.val.map (fun x => x * sv.unit / units.time))),
           tUnit := units.time,
           q := match w0 with
             | .scalar y0 =>
                 .r1 ((sv.val.map (fun x => x * sv.unit / units.time)).map
                   (fun t => qPart (flow y0 (t0.toUnit units.time) t)))
             | .vec ys => .r2 (ys.map (fun y0 =>
                 (sv.val.map (fun x => x * sv.unit / units.time)).map
                   (fun t => qPart (flow y0 (t0.toUnit units.time) t)))),
           qUnit := units.length,
           p := match w0 with
             | .scalar y0 =>
                 .r1 ((sv.val.map (fun x => x * sv.unit / units.time)).map
                   (fun t => pPart (flow y0 (t0.toUnit units.time) t)))
             | .vec ys => .r2 (ys.map (fun y0 =>
                 (sv.val.map (fun x => x * sv.unit / units.time)).map
                   (fun t => pPart (flow y0 (t0.toUnit units.time) t)))),
           pUnit := units.speed,
           interpolant := if interpolated then
               some (match w0 with
                 | .scalar _ => 1
                 | .vec ys => if ys.length = 1 then 1 else 0)
             else none },
         w0.elems.map (expectedCall cfg t0 t1 (some sv) units interpolated
           kw))) := by
  have h := integratorCall_char flow cfg w0 t0 t1 (some sv) units
    interpolated
  cases w0 <;> simpa using h

theorem norm3_nonneg (x : Vec3R) : 0 ≤ norm3 x :=
  Real.sqrt_nonneg _

theorem norm3_mul_right (y : Vec3R) (c : ℝ) :
    norm3 (fun i => y i * c) = norm3 y * |c| := by
  unfold norm3
  have h : (y 0 * c) ^ 2 + (y 1 * c) ^ 2 + (y 2 * c) ^ 2 =
      (y 0 ^ 2 + y 1 ^ 2 + y 2 ^ 2) * c ^ 2 := by ring
  rw [h, Real.sqrt_mul (by positivity), Real.sqrt_sq_eq_abs]

theorem norm3_eq_zero {x : Vec3R} (h : norm3 x = 0) : x = 0 := by
  have h0 : x 0 ^ 2 + x 1 ^ 2 + x 2 ^ 2 ≤ 0 := Real.sqrt_eq_zero'.mp h
  have h1 : x 0 = 0 := by
    nlinarith [sq_nonneg (x 0), sq_nonneg (x 1), sq_nonneg (x 2)]
  have h2 : x 1 = 0 := by
    nlinarith [sq_nonneg (x 0), sq_nonneg (x 1), sq_nonneg (x 2)]
  have h3 : x 2 = 0 := by
    nlinarith [sq_nonneg (x 0), sq_nonneg (x 1), sq_nonneg (x 2)]
  funext i
  fin_cases i
  · exact h1
  · exact h2
  · exact h3

theorem norm3_normalize {x : Vec3R} (hx : x ≠ 0) :
    norm3 (normalize_vector x) = 1 := by
  have hn : norm3 x ≠ 0 := fun h => hx (norm3_eq_zero h)
  have h1 : normalize_vector x = fun i => x i * (norm3 x)⁻¹ := by
    funext i
    unfold normalize_vector
    rw [div_eq_mul_inv]
  rw [h1, norm3_mul_right, abs_inv, abs_of_nonneg (norm3_nonneg x),
    mul_inv_cancel₀ hn]

theorem cbrt_mul_left {c : ℝ} (hc : 0 < c) (y : ℝ) :
    cbrt (c * y) = c ^ ((1 : ℝ) / 3) * cbrt y := by
  unfold cbrt
  rcases le_or_lt 0 y with hy | hy
  · rw [if_pos hy, if_pos (mul_nonneg hc.le hy), Real.mul_rpow hc.le hy]
  · rw [if_neg (not_le.mpr hy),
      if_neg (not_le.mpr (mul_neg_of_pos_of_neg hc hy))]
    have h2 : -(c * y) = c * -y := by ring
    rw [h2, Real.mul_rpow hc.le (by linarith)]
    ring

/-- C9, counterexample.  The claim asserts that each Lagrange point lies
at distance `r_t = tidal_radius(...)` from `x` for every input.  But the
cube root is negative whenever `omega² < d²Φ/dr²`: with the host
curvature `d2potential_dr2 ≡ 1`, `x = (3, 0, 4)`, `v = 0`, `G = 1` and
unit progenitor mass, `tidal_radius = cbrt(1/(0 - 1)) = -1`, while the
distance from `x` to `L2` is `|r_t| = 1 ≠ -1`. -/
theorem c9_distance_not_tidal_radius :
    tidal_radius ⟨1, fun _ _ => 1⟩ (v3R 3 0 4) (v3R 0 0 0) 1 0 = -1 ∧
    norm3 (fun i =>
      (lagrange_points ⟨1, fun _ _ => 1⟩ (v3R 3 0 4) (v3R 0 0 0) 1 0).2 i -
        v3R 3 0 4 i) = 1 := by
  have hcross0 : ∀ i, crossR (v3R 3 0 4) (v3R 0 0 0) i = 0 := by
    intro i
    fin_cases i <;> norm_num [crossR, v3R]
  have homega : orbital_angular_frequency (v3R 3 0 4) (v3R 0 0 0) = 0 := by
    show norm3 (fun i =>
      crossR (v3R 3 0 4) (v3R 0 0 0) i / norm3 (v3R 3 0 4) ^ 2) = 0
    have hfun : (fun i =>
        crossR (v3R 3 0 4) (v3R 0 0 0) i / norm3 (v3R 3 0 4) ^ 2) =
        fun _ => (0 : ℝ) := by
      funext i
      rw [hcross0 i]
      simp
    rw [hfun]
    unfold norm3
    norm_num
  have htr : tidal_radius ⟨1, fun _ _ => 1⟩ (v3R 3 0 4) (v3R 0 0 0) 1 0 =
      -1 := by
    show cbrt ((1 : ℝ) * 1 /
      (orbital_angular_frequency (v3R 3 0 4) (v3R 0 0 0) ^ 2 - 1)) = -1
    rw [homega]
    have harg : (1 : ℝ) * 1 / ((0 : ℝ) ^ 2 - 1) = -1 := by norm_num
    rw [harg]
    unfold cbrt
    rw [if_neg (by norm_num)]
    have h1 : (-(-1 : ℝ)) = 1 := by norm_num
    rw [h1, Real.one_rpow]
  have hx9ne : v3R 3 0 4 ≠ (0 : Vec3R) := by
    intro h
    have h0 := congrFun h 0
    norm_num [v3R] at h0
  refine ⟨htr, ?_⟩
  have hL2 : (fun i =>
      (lagrange_points ⟨1, fun _ _ => 1⟩ (v3R 3 0 4) (v3R 0 0 0) 1 0).2 i -
        v3R 3 0 4 i) =
      fun i => normalize_vector (v3R 3 0 4) i *
        tidal_radius ⟨1, fun _ _ => 1⟩ (v3R 3 0 4) (v3R 0 0 0) 1 0 := by
    funext i
    show v3R 3 0 4 i + normalize_vector (v3R 3 0 4) i *
        tidal_radius ⟨1, fun _ _ => 1⟩ (v3R 3 0 4) (v3R 0 0 0) 1 0 -
      v3R 3 0 4 i = _
    ring
  rw [hL2, norm3_mul_right, norm3_normalize hx9ne, htr]
  norm_num

/-- C9, amended.  `lagrange_points` returns exactly
`(x - r_hat * r_t, x + r_hat * r_t)` with `r_hat` the unit vector along
`x` and `r_t` the tidal radius, hence `L1 + L2 = 2x` componentwise; and
for `x ≠ 0` each point lies at distance `|r_t|` from `x` along the
radial direction (equal to `r_t` whenever `r_t ≥ 0`). -/
theorem c9_lagrange_points_symmetric (pot : Potential) (x v : Vec3R)
    (prog_mass t : ℝ) :
    (lagrange_points pot x v prog_mass t).1 =
      (fun i => x i -
        normalize_vector x i * tidal_radius pot x v prog_mass t) ∧
    (lagrange_points pot x v prog_mass t).2 =
      (fun i => x i +
        normalize_vector x i * tidal_radius pot x v prog_mass t) ∧
    (∀ i, (lagrange_points pot x v prog_mass t).1 i +
        (lagrange_points pot x v prog_mass t).2 i = 2 * x i) ∧
    (x ≠ 0 →
      norm3 (fun i => (lagrange_points pot x v prog_mass t).1 i - x i) =
        |tidal_radius pot x v prog_mass t| ∧
      norm3 (fun i => (lagrange_points pot x v prog_mass t).2 i - x i) =
        |tidal_radius pot x v prog_mass t|) := by
  refine ⟨rfl, rfl, ?_, ?_⟩
  · intro i
    show (x i - _) + (x i + _) = 2 * x i
    ring
  · intro hx
    constructor
    · have h1 : (fun i =>
          (lagrange_points pot x v prog_mass t).1 i - x i) =
          fun i => normalize_vector x i *
            (-(tidal_radius pot x v prog_mass t)) := by
        funext i
        show x i - _ - x i = _
        ring
      rw [h1, norm3_mul_right, norm3_normalize hx, abs_neg, one_mul]
    · have h2 : (fun i =>
          (lagrange_points pot x v prog_mass t).2 i - x i) =
          fun i => normalize_vector x i *
            tidal_radius pot x v prog_mass t := by
        funext i
        show x i + _ - x i = _
        ring
      rw [h2, norm3_mul_right, norm3_normalize hx, one_mul]

/-- Witness for C9 (amended): at `x = (3, 0, 4) ≠ 0` the distance
clause holds concretely. -/
theorem c9_lagrange_points_symmetric_witness :
    (v3R 3 0 4 ≠ (0 : Vec3R)) ∧
    norm3 (fun i =>
      (lagrange_points ⟨0, fun _ _ => 0⟩ (v3R 3 0 4) (v3R 0 0 0) 1 0).1 i -
        v3R 3 0 4 i) =
      |tidal_radius ⟨0, fun _ _ => 0⟩ (v3R 3 0 4) (v3R 0 0 0) 1 0| := by
  have hne : v3R 3 0 4 ≠ (0 : Vec3R) := by
    intro h
    have h0 := congrFun h 0
    norm_num [v3R] at h0
  exact ⟨hne, ((c9_lagrange_points_symmetric _ _ _ _ _).2.2.2 hne).1⟩

/-- C10.  In exact real arithmetic `tidal_radius` is homogeneous of
degree one third in the progenitor mass: scaling the mass by `c > 0`
scales the radius by `c^(1/3)`, because the cube-root argument is linear
in the mass. -/
theorem c10_tidal_radius_mass_homogeneous (pot : Potential) (x v : Vec3R)
    (prog_mass t c : ℝ) (hc : 0 < c) :
    tidal_radius pot x v (c * prog_mass) t =
      c ^ ((1 : ℝ) / 3) * tidal_radius pot x v prog_mass t := by
  show cbrt (pot.G * (c * prog_mass) /
      (orbital_angular_frequency x v ^ 2 - pot.d2potential_dr2 x t)) =
    c ^ ((1 : ℝ) / 3) * cbrt (pot.G * prog_mass /
      (orbital_angular_frequency x v ^ 2 - pot.d2potential_dr2 x t))
  have h : pot.G * (c * prog_mass) /
      (orbital_angular_frequency x v ^ 2 - pot.d2potential_dr2 x t) =
      c * (pot.G * prog_mass /
        (orbital_angular_frequency x v ^ 2 - pot.d2potential_dr2 x t)) := by
    ring
  rw [h, cbrt_mul_left hc]

/-- Witness for C10: the scaling law at `c = 8`, unit mass, and a
concrete potential. -/
theorem c10_tidal_radius_mass_homogeneous_witness :
    (0 : ℝ) < 8 ∧
    tidal_radius ⟨1, fun _ _ => 0⟩ (v3R 1 0 0) (v3R 0 1 0) (8 * 1) 0 =
      (8 : ℝ) ^ ((1 : ℝ) / 3) *
        tidal_radius ⟨1, fun _ _ => 0⟩ (v3R 1 0 0) (v3R 0 1 0) 1 0 :=
  ⟨by norm_num,
    c10_tidal_radius_mass_homogeneous ⟨1, fun _ _ => 0⟩ (v3R 1 0 0)
      (v3R 0 1 0) 1 0 8 (by norm_num)⟩

end Galax
